import Mathlib

/-!
Verification of the core execution and scoring engine of the go_eval_agent
repository: the mock tool resolver (`pkg/mock`), the execution trace
(`pkg/trace`), the composite multi-judge scorer (`pkg/judge`), the run-to-run
diff engine (`pkg/diff`) and the bounded-concurrency case runner
(`pkg/runner`).

The Go source is shallowly embedded: each Go function becomes a Lean
definition over explicit state.  Go `float64` score/weight/threshold values
are modelled as rationals (the code performs only +, *, /, and comparisons on
them); Go `int` token counts are modelled as two's-complement 64-bit
integers: an `Int` kept in `[-2^63, 2^63)`, with every machine addition
wrapped through an explicit reduction mod `2^64`; wall-clock values
(`time.Time`, `time.Duration`) and artificial mock delays are outside the
model, so trace/record time fields are omitted.  Go maps are modelled as
association lists where insertion prepends, so `List.lookup` returns the
most recent binding, matching Go map overwrite semantics.
-/

/-- First-match association-list lookup, the shared model of Go map reads
(writes prepend, so the first match is the most recent binding). -/
def goLookup {β : Type} : List (String × β) → String → Option β
  | [], _ => none
  | (k0, v) :: rest, k => if k0 = k then some v else goLookup rest k

namespace mock

/-- Embeds `mock.MockResponse` (pkg/mock): a single mock response with
optional simulated error.  The `delay` field (nanoseconds) is carried but the
sleep itself is outside the model. -/
structure MockResponse where
  content : String
  error : String
  delay : Int
deriving Repr, DecidableEq

/-- Embeds `mock.MockConfig`: per-tool one-shot responses and an optional
default used once the list is exhausted. -/
structure MockConfig where
  toolName : String
  responses : List MockResponse
  defaultResponse : Option MockResponse
deriving Repr, DecidableEq

/-- Embeds `mock.ToolCallRecord` minus its wall-clock fields (`Duration`,
`Timestamp`), which are outside the model.  `P` abstracts the Go
`map[string]interface{}` parameter payload, which the registry stores but
never inspects. -/
structure ToolCallRecord (P : Type) where
  toolName : String
  parameters : P
  response : String
  error : String
deriving Repr, DecidableEq

/-- Embeds `mock.MockRegistry`: mock configs keyed by tool name, per-tool
call cursors, and the append-only call log.  Both maps are association lists
with prepend-on-write (Go map overwrite semantics via first-match lookup). -/
structure MockRegistry (P : Type) where
  mocks : List (String × MockConfig)
  callIdx : List (String × Nat)
  calls : List (ToolCallRecord P)
deriving Repr, DecidableEq

/-- Embeds `mock.NewRegistry`: pre-loads the given configs; a later config
for the same tool name overwrites an earlier one. -/
def NewRegistry (P : Type) (configs : List MockConfig) : MockRegistry P :=
  { mocks := configs.foldl (fun m c => (c.toolName, c) :: m) []
    callIdx := []
    calls := [] }

/-- Embeds `MockRegistry.Register`: adds or replaces the mock config for one
tool. -/
def Register {P : Type} (r : MockRegistry P) (config : MockConfig) :
    MockRegistry P :=
  { r with mocks := (config.toolName, config) :: r.mocks }

/-- Error message for an unconfigured tool (`no mock configured for tool %q`;
`%q` quoting abstracted). -/
def noMockMsg (toolName : String) : String :=
  "no mock configured for tool " ++ toolName

/-- Error message when one-shot responses are exhausted and no default
exists. -/
def exhaustedMsg (toolName : String) : String :=
  "mock for tool " ++ toolName ++
    ": sequential responses exhausted and no default_response configured"

/-- Error message surfacing a configured mock error. -/
def mockErrMsg (toolName msg : String) : String :=
  "mock error for tool " ++ toolName ++ ": " ++ msg

/-- Embeds `MockRegistry.Resolve`: returns the updated registry and the call
outcome.  Mirrors the Go control flow: unknown tool and exhausted-no-default
return early (before the call log append); otherwise the selected response is
recorded and either its content is returned or its configured error is
surfaced. -/
def Resolve {P : Type} (r : MockRegistry P) (toolName : String) (params : P) :
    MockRegistry P × Except String String :=
  match goLookup r.mocks toolName with
  | none => (r, Except.error (noMockMsg toolName))
  | some cfg =>
    let idx := (goLookup r.callIdx toolName).getD 0
    let selected : Option (MockResponse × List (String × Nat)) :=
      if h : idx < cfg.responses.length then
        some (cfg.responses.get ⟨idx, h⟩, (toolName, idx + 1) :: r.callIdx)
      else
        match cfg.defaultResponse with
        | some d => some (d, r.callIdx)
        | none => none
    match selected with
    | none => (r, Except.error (exhaustedMsg toolName))
    | some (resp, callIdx) =>
      let record : ToolCallRecord P :=
        { toolName := toolName
          parameters := params
          response := resp.content
          error := resp.error }
      let rnew : MockRegistry P :=
        { r with callIdx := callIdx, calls := r.calls ++ [record] }
      if resp.error = "" then
        (rnew, Except.ok resp.content)
      else
        (rnew, Except.error (mockErrMsg toolName resp.error))

/-- Embeds `MockRegistry.GetCalls`: a copy of the full call log. -/
def GetCalls {P : Type} (r : MockRegistry P) : List (ToolCallRecord P) :=
  r.calls

/-- Embeds `MockRegistry.GetCallsForTool`: the call log filtered to one tool
name. -/
def GetCallsForTool {P : Type} (r : MockRegistry P) (name : String) :
    List (ToolCallRecord P) :=
  r.calls.filter (fun c => decide (c.toolName = name))

/-- Registry state after `k` successive `Resolve` calls for the same tool
with the same parameters (the results of the intermediate calls are
discarded; only the state is threaded). -/
def resolveIter {P : Type} (r : MockRegistry P) (toolName : String)
    (params : P) : Nat → MockRegistry P
  | 0 => r
  | k + 1 => (Resolve (resolveIter r toolName params k) toolName params).1

/-- Outcome of the `(k+1)`-th `Resolve` call for a tool, after `k` prior
calls for that tool. -/
def nthResolve {P : Type} (r : MockRegistry P) (toolName : String)
    (params : P) (k : Nat) : Except String String :=
  (Resolve (resolveIter r toolName params k) toolName params).2

/-- The response a `Resolve` call would select in the registry's current
state: the cursor's one-shot response while the list is not exhausted, the
default response afterwards, and none when the tool is unconfigured or
exhausted with no default (the two paths that fail without recording). -/
def selectedResponse {P : Type} (r : MockRegistry P) (toolName : String) :
    Option MockResponse :=
  match goLookup r.mocks toolName with
  | none => none
  | some cfg =>
    if h : (goLookup r.callIdx toolName).getD 0 < cfg.responses.length then
      some (cfg.responses.get ⟨(goLookup r.callIdx toolName).getD 0, h⟩)
    else cfg.defaultResponse

end mock

namespace trace

/-- `2^63`, the first integer outside the non-negative `int64` range. -/
def twoPow63 : Int := 9223372036854775808

/-- `2^64`, the size of the `int64` value space. -/
def twoPow64 : Int := 18446744073709551616

/-- Two's-complement wrap of one 64-bit machine operation: reduces an
unbounded result into `[-2^63, 2^63)`, exactly the overflow behavior of a
Go `int` (64-bit on the platforms this repository targets). -/
def wrap64 (x : Int) : Int := (x + twoPow63) % twoPow64 - twoPow63

/-- Embeds `trace.TokenUsage` (pkg/trace): running token totals.  Go `int`
modelled as an `Int` maintained in the `int64` range `[-2^63, 2^63)` by
`wrap64` at every write. -/
structure TokenUsage where
  inputTokens : Int
  outputTokens : Int
  totalTokens : Int
deriving Repr, DecidableEq

/-- Token usage of a freshly created trace (`trace.New` zero value). -/
def TokenUsage.init : TokenUsage := ⟨0, 0, 0⟩

/-- Embeds `AgentTrace.AddUsage`: accumulates one API call's token counts
into the totals.  Each Go `+=` (and the `input + output` operand itself) is
one wrapping 64-bit addition. -/
def AddUsage (u : TokenUsage) (input output : Int) : TokenUsage :=
  { inputTokens := wrap64 (u.inputTokens + input)
    outputTokens := wrap64 (u.outputTokens + output)
    totalTokens := wrap64 (u.totalTokens + wrap64 (input + output)) }

/-- Usage totals after a sequence of `AddUsage` calls. -/
def addUsageList (u : TokenUsage) (l : List (Int × Int)) : TokenUsage :=
  l.foldl (fun acc p => AddUsage acc p.1 p.2) u

/-- Componentwise order on usage totals. -/
def usageLE (u v : TokenUsage) : Prop :=
  u.inputTokens ≤ v.inputTokens ∧ u.outputTokens ≤ v.outputTokens ∧
    u.totalTokens ≤ v.totalTokens

end trace

deriving instance DecidableEq for Except

namespace judge

/-- Embeds `judge.Status` (pkg/judge/composite.go): the four status string
constants. -/
inductive Status where
  | pass
  | fail
  | review
  | error
deriving Repr, DecidableEq

/-- Embeds `judge.Result` (the judge interface's result): a boolean verdict,
a score (Go float64 modelled as a rational), and a reason string. -/
structure Result where
  pass : Bool
  score : ℚ
  reason : String
deriving Repr, DecidableEq

/-- Embeds one `judge.JudgeConfig` together with the outcome of the single
`Judge.Evaluate` call `Score` makes for it (the judge itself is an external
interface; `Score` invokes it exactly once, so the config and that one
outcome fully determine the computation). -/
structure JudgeCfg where
  name : String
  weight : ℚ
  outcome : Except String Result
deriving Repr, DecidableEq

/-- Embeds `judge.JudgeScore`: one judge's contribution record. -/
structure JudgeScore where
  judgeName : String
  pass : Bool
  score : ℚ
  weight : ℚ
  reason : String
  status : Status
deriving Repr, DecidableEq

/-- Embeds `judge.CompositeResult`. -/
structure CompositeResult where
  status : Status
  compositeScore : ℚ
  pass : Bool
  scores : List JudgeScore
  reason : String
deriving Repr, DecidableEq

/-- Embeds `judge.CompositeScorer`. -/
structure CompositeScorer where
  threshold : ℚ
deriving Repr, DecidableEq

/-- Embeds `judge.NewCompositeScorer`: a zero threshold defaults to 0.5. -/
def NewCompositeScorer (threshold : ℚ) : CompositeScorer :=
  if threshold = 0 then ⟨1 / 2⟩ else ⟨threshold⟩

/-- Loop state of `CompositeScorer.Score`: the per-judge score list, the
running weighted sum and total weight, the review/error flags and the reason
lines. -/
structure ScoreAcc where
  scores : List JudgeScore
  totalWeight : ℚ
  weightedSum : ℚ
  hasReview : Bool
  hasError : Bool
  reasons : List String
deriving Repr, DecidableEq

/-- One iteration of the `Score` loop over judge configs.  A zero weight
defaults to 1.  An errored judge only records status/reason and sets the
error flag; every non-errored judge (pass, fail or review) adds
`score × weight` to the weighted sum and `weight` to the total weight.
The numeric part of the Go reason line (`score=%.2f`) is abstracted by
`toString`. -/
def scoreStep (acc : ScoreAcc) (cfg : JudgeCfg) : ScoreAcc :=
  let w := if cfg.weight = 0 then 1 else cfg.weight
  match cfg.outcome with
  | Except.error e =>
    { acc with
      scores := acc.scores ++
        [{ judgeName := cfg.name, pass := false, score := 0, weight := w
           reason := e, status := Status.error }]
      hasError := true
      reasons := acc.reasons ++ [cfg.name ++ ": error: " ++ e] }
  | Except.ok result =>
    let status :=
      if result.reason = "review" then Status.review
      else if result.pass then Status.pass
      else Status.fail
    { scores := acc.scores ++
        [{ judgeName := cfg.name, pass := result.pass, score := result.score
           weight := w, reason := result.reason, status := status }]
      totalWeight := acc.totalWeight + w
      weightedSum := acc.weightedSum + result.score * w
      hasReview := acc.hasReview || decide (result.reason = "review")
      hasError := acc.hasError
      reasons := acc.reasons ++
        [cfg.name ++ ": " ++ result.reason ++ " (score=" ++
          toString result.score ++ ")"] }

/-- Embeds `CompositeScorer.Score`: folds the judge configs, divides the
weighted sum by the total weight when the latter is positive, then applies
the Error-over-Review-over-threshold status precedence. -/
def Score (cs : CompositeScorer) (configs : List JudgeCfg) : CompositeResult :=
  let acc := configs.foldl scoreStep ⟨[], 0, 0, false, false, []⟩
  let composite := if 0 < acc.totalWeight then acc.weightedSum / acc.totalWeight else 0
  let pass0 := decide (cs.threshold ≤ composite)
  let status :=
    if acc.hasError then Status.error
    else if acc.hasReview then Status.review
    else if pass0 then Status.pass
    else Status.fail
  let pass := if acc.hasError then false else if acc.hasReview then false else pass0
  { status := status
    compositeScore := composite
    pass := pass
    scores := acc.scores
    reason := String.intercalate "; " acc.reasons }

/-- A judge config whose single invocation errored. -/
def errored (cfg : JudgeCfg) : Bool :=
  match cfg.outcome with
  | Except.error _ => true
  | Except.ok _ => false

/-- A judge config whose (successful) result carries the reserved "review"
reason. -/
def flaggedReview (cfg : JudgeCfg) : Bool :=
  match cfg.outcome with
  | Except.error _ => false
  | Except.ok r => decide (r.reason = "review")

/-- Effective weight of a judge config: 1 when the configured weight is
zero. -/
def effWeight (cfg : JudgeCfg) : ℚ :=
  if cfg.weight = 0 then 1 else cfg.weight

/-- Score of a judge config's successful result (0 for an errored judge,
which never contributes). -/
def okScore (cfg : JudgeCfg) : ℚ :=
  match cfg.outcome with
  | Except.error _ => 0
  | Except.ok r => r.score

/-- Total contributing weight: the sum of effective weights over the
non-errored judges. -/
def contribWeight (configs : List JudgeCfg) : ℚ :=
  ((configs.filter (fun c => !errored c)).map effWeight).sum

/-- Contributing weighted score sum over the non-errored judges. -/
def contribSum (configs : List JudgeCfg) : ℚ :=
  ((configs.filter (fun c => !errored c)).map
    (fun c => okScore c * effWeight c)).sum

/-- Whether any judge in the list errored. -/
def anyErrored (configs : List JudgeCfg) : Bool :=
  configs.any errored

/-- Whether any judge in the list is flagged for human review. -/
def anyReview (configs : List JudgeCfg) : Bool :=
  configs.any flaggedReview

end judge

namespace diff

/-- Embeds the fields of `result.CaseResult` consumed by the diff engine
(pkg/diff): case name, score (float64 as rational), pass flag and error
string. -/
structure CaseResult where
  caseName : String
  score : ℚ
  pass : Bool
  error : String
deriving Repr, DecidableEq

/-- Embeds `result.RunSummary` as consumed by `Compare`. -/
structure RunSummary where
  runID : String
  results : List CaseResult
deriving Repr, DecidableEq

/-- Embeds `diff.Category`. -/
inductive Category where
  | improved
  | regressed
  | unchanged
  | new
  | removed
deriving Repr, DecidableEq

/-- Embeds `diff.CaseDiff`.  Fields left untouched by a branch keep their Go
zero values. -/
structure CaseDiff where
  caseName : String
  category : Category
  scoreA : ℚ := 0
  scoreB : ℚ := 0
  scoreDelta : ℚ := 0
  statusA : String := ""
  statusB : String := ""
deriving Repr, DecidableEq

/-- Embeds `diff.Summary`: counts by category. -/
structure Summary where
  improved : Nat := 0
  regressed : Nat := 0
  unchanged : Nat := 0
  new : Nat := 0
  removed : Nat := 0
deriving Repr, DecidableEq

/-- Embeds `diff.DiffResult`. -/
structure DiffResult where
  runA : String
  runB : String
  cases : List CaseDiff
  summary : Summary
deriving Repr, DecidableEq

/-- Embeds `diff.statusStr`. -/
def statusStr (cr : CaseResult) : String :=
  if cr.error ≠ "" then "error"
  else if cr.pass then "pass"
  else "fail"

/-- Increment the summary counter of one category. -/
def bumpSummary (s : Summary) : Category → Summary
  | Category.improved => { s with improved := s.improved + 1 }
  | Category.regressed => { s with regressed := s.regressed + 1 }
  | Category.unchanged => { s with unchanged := s.unchanged + 1 }
  | Category.new => { s with new := s.new + 1 }
  | Category.removed => { s with removed := s.removed + 1 }

/-- The `CaseDiff` built for one case of run B inside `Compare`'s first
loop: new when absent from run A, otherwise classified by the score delta
against the threshold (`|delta| ≤ t` unchanged, else sign decides). -/
def diffForB (aMap : List (String × CaseResult)) (threshold : ℚ)
    (crB : CaseResult) : CaseDiff :=
  match goLookup aMap crB.caseName with
  | none =>
    { caseName := crB.caseName, category := Category.new
      scoreB := crB.score, statusB := statusStr crB }
  | some crA =>
    let delta := crB.score - crA.score
    let cat :=
      if |delta| ≤ threshold then Category.unchanged
      else if 0 < delta then Category.improved
      else Category.regressed
    { caseName := crB.caseName, category := cat
      scoreA := crA.score, scoreB := crB.score, scoreDelta := delta
      statusA := statusStr crA, statusB := statusStr crB }

/-- The `CaseDiff` built for a case of run A absent from run B. -/
def removedDiff (crA : CaseResult) : CaseDiff :=
  { caseName := crA.caseName, category := Category.removed
    scoreA := crA.score, statusA := statusStr crA }

/-- Embeds `diff.Compare`: index run A by name (map overwrite = prepend),
walk run B in order classifying each case and bumping the matching summary
counter, then append a removed entry for every run-A case whose name was not
seen in run B. -/
def Compare (a b : RunSummary) (threshold : ℚ) : DiffResult :=
  let aMap := a.results.foldl (fun m cr => (cr.caseName, cr) :: m) []
  let stepB := fun (acc : List CaseDiff × Summary) (crB : CaseResult) =>
    let cd := diffForB aMap threshold crB
    (acc.1 ++ [cd], bumpSummary acc.2 cd.category)
  let accB := b.results.foldl stepB ([], {})
  let stepA := fun (acc : List CaseDiff × Summary) (crA : CaseResult) =>
    if b.results.any (fun crB => decide (crB.caseName = crA.caseName)) then acc
    else (acc.1 ++ [removedDiff crA], bumpSummary acc.2 Category.removed)
  let accAll := a.results.foldl stepA accB
  { runA := a.runID, runB := b.runID, cases := accAll.1, summary := accAll.2 }

/-- Embeds `DiffResult.Filter`: an empty category list returns the receiver
unchanged; otherwise the case list is filtered by membership while run ids
and summary counts are copied from the unfiltered result. -/
def Filter (dr : DiffResult) (categories : List Category) : DiffResult :=
  if categories.length = 0 then dr
  else
    { runA := dr.runA
      runB := dr.runB
      cases := dr.cases.filter (fun cd => categories.contains cd.category)
      summary := dr.summary }

/-- Spec-side classification of one run-B case, written from the claim's
words: absent from run A is New; otherwise `delta = scoreB − scoreA` is
Unchanged when `|delta| ≤ threshold`, Improved when `delta > threshold`,
Regressed when `delta < −threshold` (the three conditions are exhaustive and
mutually exclusive for a non-negative threshold). -/
def specDiffForB (aResults : List CaseResult) (threshold : ℚ)
    (crB : CaseResult) : CaseDiff :=
  match aResults.find? (fun crA => decide (crA.caseName = crB.caseName)) with
  | none =>
    { caseName := crB.caseName, category := Category.new
      scoreB := crB.score, statusB := statusStr crB }
  | some crA =>
    let delta := crB.score - crA.score
    let cat :=
      if |delta| ≤ threshold then Category.unchanged
      else if threshold < delta then Category.improved
      else Category.regressed
    { caseName := crB.caseName, category := cat
      scoreA := crA.score, scoreB := crB.score, scoreDelta := delta
      statusA := statusStr crA, statusB := statusStr crB }

/-- Spec-side list of Removed entries: the run-A cases whose name does not
appear in run B, in run-A order. -/
def specRemoved (aResults bResults : List CaseResult) : List CaseDiff :=
  (aResults.filter
    (fun crA => !bResults.any (fun crB => decide (crB.caseName = crA.caseName)))).map
    removedDiff

/-- Summary counters accumulated over a list of case diffs (the shape of the
incremental counting in `Compare`). -/
def summarize (s : Summary) (cds : List CaseDiff) : Summary :=
  cds.foldl (fun s cd => bumpSummary s cd.category) s

end diff

namespace runner

/-- Embeds `runner.MaxToolLoopIterations` (pkg/runner): the tool-loop
iteration cap. -/
def MaxToolLoopIterations : Nat := 20

/-- Embeds `provider.ToolCall`: one tool-call request emitted by the model
provider.  `P` abstracts the parameter payload, as in the mock registry. -/
structure ToolCall (P : Type) where
  id : String
  name : String
  parameters : P
deriving Repr, DecidableEq

/-- Embeds `provider.Usage`: token counts of one provider response. -/
structure Usage where
  inputTokens : Int
  outputTokens : Int
deriving Repr, DecidableEq

/-- Embeds `provider.Response`: text content, requested tool calls and token
usage. -/
structure Response (P : Type) where
  content : String
  toolCalls : List (ToolCall P)
  usage : Usage
deriving Repr, DecidableEq

/-- Embeds `provider.Message`: one conversation message.  Only the fields
the runner writes are modelled. -/
structure Message (P : Type) where
  role : String
  content : String
  toolCalls : List (ToolCall P) := []
  toolCallID : String := ""
deriving Repr, DecidableEq

/-- Embeds the slice of `trace.AgentTrace` the runner mutates: the ordered
messages (role, content), the tool call records and the usage totals
(wall-clock fields are outside the model). -/
structure Trace (P : Type) where
  messages : List (String × String) := []
  toolCalls : List (mock.ToolCallRecord P) := []
  usage : trace.TokenUsage := trace.TokenUsage.init
deriving Repr, DecidableEq

/-- State threaded through the tool loop of `runCase`: the conversation so
far, the mock registry and the trace. -/
structure LoopState (P : Type) where
  messages : List (Message P)
  registry : mock.MockRegistry P
  tr : Trace P
deriving Repr, DecidableEq

/-- The inner per-turn loop of `runCase` that resolves one provider turn's
tool calls strictly in emission order: each call is resolved through the
mock registry, recorded on the trace (a failed resolution records the error
and feeds back an "Error: …" tool message instead of aborting), and appended
to the running conversation. -/
def resolveToolCalls {P : Type} (st : LoopState P) :
    List (ToolCall P) → LoopState P
  | [] => st
  | tc :: rest =>
    let step := mock.Resolve st.registry tc.name tc.parameters
    let content := match step.2 with
      | Except.ok c => c
      | Except.error _ => ""
    let errMsg := match step.2 with
      | Except.ok _ => ""
      | Except.error e => e
    let record : mock.ToolCallRecord P :=
      { toolName := tc.name, parameters := tc.parameters
        response := content, error := errMsg }
    let toolContent := match step.2 with
      | Except.ok c => c
      | Except.error e => "Error: " ++ e
    let st1 : LoopState P :=
      { messages := st.messages ++
          [{ role := "tool", content := toolContent, toolCallID := tc.id }]
        registry := step.1
        tr := { st.tr with
                toolCalls := st.tr.toolCalls ++ [record]
                messages := st.tr.messages ++ [("tool", toolContent)] } }
    resolveToolCalls st1 rest

/-- Terminal outcome of the tool loop: the loop state at exit, the final
response text and the error string (both empty when the iteration cap is hit,
mirroring the Go code which leaves `cr.FinalResponse` and `cr.Error` at their
zero values in that path). -/
structure LoopExit (P : Type) where
  state : LoopState P
  finalResponse : String
  error : String
deriving Repr, DecidableEq

/-- Embeds the agent tool-use loop of `runner.runCase`: at most `fuel`
iterations; each iteration sends the conversation to the provider, breaks
with a wrapped error on provider failure, accumulates usage, finishes on a
response without tool calls, and otherwise records the assistant turn and
resolves the requested tool calls before the next iteration. -/
def runLoop {P : Type}
    (provider : List (Message P) → Except String (Response P))
    (st : LoopState P) : Nat → LoopExit P
  | 0 => { state := st, finalResponse := "", error := "" }
  | fuel + 1 =>
    match provider st.messages with
    | Except.error e =>
      { state := st, finalResponse := "", error := "provider error: " ++ e }
    | Except.ok resp =>
      let tr1 := { st.tr with
        usage := trace.AddUsage st.tr.usage resp.usage.inputTokens
          resp.usage.outputTokens }
      if resp.toolCalls.isEmpty then
        { state := { st with
            tr := { tr1 with
              messages := tr1.messages ++ [("assistant", resp.content)] } }
          finalResponse := resp.content
          error := "" }
      else
        let st1 : LoopState P :=
          { messages := st.messages ++
              [{ role := "assistant", content := resp.content
                 toolCalls := resp.toolCalls }]
            registry := st.registry
            tr := { tr1 with
              messages := tr1.messages ++ [("assistant", resp.content)] } }
        let st2 := resolveToolCalls st1 resp.toolCalls
        runLoop provider st2 fuel

/-- Embeds the per-case outcome fields of `runner.CaseResult` that the tool
loop determines (timing and identification fields are outside the model). -/
structure CaseOutcome (P : Type) where
  finalResponse : String
  error : String
  tr : Trace P
deriving Repr, DecidableEq

/-- Embeds `runner.runCase` from the point where mocks and trace are set up:
seeds the conversation with the rendered user message, records it, then runs
the bounded tool loop. -/
def runCase {P : Type}
    (provider : List (Message P) → Except String (Response P))
    (mocks : List mock.MockConfig) (userMsg : String) : CaseOutcome P :=
  let registry := mock.NewRegistry P mocks
  let st0 : LoopState P :=
    { messages := [{ role := "user", content := userMsg }]
      registry := registry
      tr := { messages := [("user", userMsg)] } }
  let exit := runLoop provider st0 MaxToolLoopIterations
  { finalResponse := exit.finalResponse
    error := exit.error
    tr := exit.state.tr }

/-- Embeds `runner.Config`.  `timeout` is in nanoseconds
(`time.Duration`). -/
structure Config where
  concurrency : Int
  timeout : Int
deriving Repr, DecidableEq

/-- Embeds `runner.New`: a concurrency below 1 is coerced to 1 and a
non-positive timeout defaults to 60 seconds. -/
def New (cfg : Config) : Config :=
  { concurrency := if cfg.concurrency < 1 then 1 else cfg.concurrency
    timeout := if cfg.timeout ≤ 0 then 60000000000 else cfg.timeout }

/-- Scheduled-write semantics of result collection in `runner.Run`: each
case is pre-assigned the output slot of its input index; `order` is the
order in which case goroutines finish and perform
`result.Cases[idx] = cr` under the mutex.  `f` is the per-case execution
(`runCase`), which depends only on the case itself. -/
def runWrites {α β : Type} (f : α → β) (cases : List α) (dflt : β)
    (order : List Nat) : List β :=
  order.foldl
    (fun res idx =>
      match cases.get? idx with
      | some c => res.set idx (f c)
      | none => res)
    (List.replicate cases.length dflt)

/-- Channel semantics of the admission gate `sem` in `runner.Run`
(a buffered channel of capacity `cap`): the set of goroutines currently
between `sem <- struct{}{}` and `<-sem` — i.e. mid-`runCase`.  An acquire
only proceeds while fewer than `cap` goroutines hold a slot; a release
removes a holder. -/
inductive SemReachable (cap : Nat) : List Nat → Prop where
  | init : SemReachable cap []
  | acquire {active : List Nat} (g : Nat) :
      SemReachable cap active → g ∉ active → active.length < cap →
      SemReachable cap (g :: active)
  | release {active : List Nat} (g : Nat) :
      SemReachable cap active → g ∈ active →
      SemReachable cap (active.erase g)

end runner

/-! ## Trace usage accumulation (C8) -/

theorem wrap64_eq_self (x : Int) (h1 : -trace.twoPow63 ≤ x)
    (h2 : x < trace.twoPow63) : trace.wrap64 x = x := by
  simp only [trace.wrap64, trace.twoPow63, trace.twoPow64] at h1 h2 ⊢
  omega

theorem addUsageList_concat (u : trace.TokenUsage) (xs : List (Int × Int))
    (p : Int × Int) :
    trace.addUsageList u (xs ++ [p]) =
      trace.AddUsage (trace.addUsageList u xs) p.1 p.2 := by
  unfold trace.addUsageList
  rw [List.foldl_append]
  rfl

theorem sum_map_nonneg (f : Int × Int → Int) (l : List (Int × Int))
    (hf : ∀ p ∈ l, 0 ≤ f p) : 0 ≤ (l.map f).sum := by
  apply List.sum_nonneg
  intro x hx
  obtain ⟨p, hp, rfl⟩ := List.mem_map.mp hx
  exact hf p hp

theorem sum_map_take_le (f : Int × Int → Int) (l : List (Int × Int))
    (hf : ∀ p ∈ l, 0 ≤ f p) (k : Nat) :
    ((l.take k).map f).sum ≤ (l.map f).sum := by
  conv_rhs => rw [← List.take_append_drop k l]
  rw [List.map_append, List.sum_append]
  have hge : 0 ≤ ((l.drop k).map f).sum :=
    sum_map_nonneg f (l.drop k) (fun p hp => hf p (List.mem_of_mem_drop hp))
  linarith

theorem sum_map_take_mono (f : Int × Int → Int) (l : List (Int × Int))
    (hf : ∀ p ∈ l, 0 ≤ f p) (k : Nat) :
    ((l.take k).map f).sum ≤ ((l.take (k + 1)).map f).sum := by
  by_cases hk : k < l.length
  · have hx : l[k]? = some l[k] := List.getElem?_eq_getElem hk
    have htake : l.take (k + 1) = l.take k ++ [l[k]] := by
      rw [List.take_succ, hx]; rfl
    have hp := hf _ (List.getElem_mem hk)
    rw [htake]
    simp only [List.map_append, List.sum_append, List.map_cons, List.map_nil,
      List.sum_cons, List.sum_nil, add_zero]
    linarith
  · rw [List.take_of_length_le (by omega), List.take_of_length_le (by omega)]

theorem sum_map_fst_le (l : List (Int × Int))
    (hpos : ∀ p ∈ l, 0 ≤ p.1 ∧ 0 ≤ p.2) :
    (l.map Prod.fst).sum ≤ (l.map (fun p => p.1 + p.2)).sum := by
  induction l with
  | nil => simp
  | cons p l ih =>
    simp only [List.map_cons, List.sum_cons]
    have h1 := (hpos p (by simp)).2
    have h2 := ih (fun q hq => hpos q (by simp [hq]))
    linarith

theorem sum_map_snd_le (l : List (Int × Int))
    (hpos : ∀ p ∈ l, 0 ≤ p.1 ∧ 0 ≤ p.2) :
    (l.map Prod.snd).sum ≤ (l.map (fun p => p.1 + p.2)).sum := by
  induction l with
  | nil => simp
  | cons p l ih =>
    simp only [List.map_cons, List.sum_cons]
    have h1 := (hpos p (by simp)).1
    have h2 := ih (fun q hq => hpos q (by simp [hq]))
    linarith

theorem addUsage_take_spec (l : List (Int × Int))
    (hpos : ∀ p ∈ l, 0 ≤ p.1 ∧ 0 ≤ p.2)
    (hbound : (l.map (fun p => p.1 + p.2)).sum < trace.twoPow63) :
    ∀ k : Nat, trace.addUsageList trace.TokenUsage.init (l.take k) =
      ⟨((l.take k).map Prod.fst).sum, ((l.take k).map Prod.snd).sum,
        ((l.take k).map (fun p => p.1 + p.2)).sum⟩ := by
  intro k
  induction k with
  | zero => simp [trace.addUsageList, trace.TokenUsage.init]
  | succ k ih =>
    by_cases hk : k < l.length
    · have hx : l[k]? = some l[k] := List.getElem?_eq_getElem hk
      have hmem : l[k] ∈ l := List.getElem_mem hk
      have hp := hpos _ hmem
      have htake : l.take (k + 1) = l.take k ++ [l[k]] := by
        rw [List.take_succ, hx]; rfl
      have hfst0 : 0 ≤ ((l.take (k + 1)).map Prod.fst).sum :=
        sum_map_nonneg _ _
          (fun p hmp => (hpos p (List.mem_of_mem_take hmp)).1)
      have hsnd0 : 0 ≤ ((l.take (k + 1)).map Prod.snd).sum :=
        sum_map_nonneg _ _
          (fun p hmp => (hpos p (List.mem_of_mem_take hmp)).2)
      have hadd0 : 0 ≤ ((l.take (k + 1)).map (fun p => p.1 + p.2)).sum :=
        sum_map_nonneg _ _
          (fun p hmp => by
            have := hpos p (List.mem_of_mem_take hmp)
            linarith [this.1, this.2])
      have hfstB : ((l.take (k + 1)).map Prod.fst).sum < trace.twoPow63 := by
        calc ((l.take (k + 1)).map Prod.fst).sum
            ≤ (l.map Prod.fst).sum :=
              sum_map_take_le _ _ (fun p hmp => (hpos p hmp).1) _
          _ ≤ (l.map (fun p => p.1 + p.2)).sum := sum_map_fst_le l hpos
          _ < trace.twoPow63 := hbound
      have hsndB : ((l.take (k + 1)).map Prod.snd).sum < trace.twoPow63 := by
        calc ((l.take (k + 1)).map Prod.snd).sum
            ≤ (l.map Prod.snd).sum :=
              sum_map_take_le _ _ (fun p hmp => (hpos p hmp).2) _
          _ ≤ (l.map (fun p => p.1 + p.2)).sum := sum_map_snd_le l hpos
          _ < trace.twoPow63 := hbound
      have haddB : ((l.take (k + 1)).map (fun p => p.1 + p.2)).sum <
          trace.twoPow63 := by
        calc ((l.take (k + 1)).map (fun p => p.1 + p.2)).sum
            ≤ (l.map (fun p => p.1 + p.2)).sum :=
              sum_map_take_le _ _
                (fun p hmp => by
                  have := hpos p hmp
                  linarith [this.1, this.2]) _
          _ < trace.twoPow63 := hbound
      have hpairB : l[k].1 + l[k].2 < trace.twoPow63 := by
        have hle : l[k].1 + l[k].2 ≤ (l.map (fun p => p.1 + p.2)).sum :=
          List.single_le_sum
            (fun x hmx => by
              obtain ⟨q, hq, rfl⟩ := List.mem_map.mp hmx
              have := hpos q hq
              linarith [this.1, this.2])
            _ (List.mem_map_of_mem _ hmem)
        linarith
      have hsplit : ∀ f : Int × Int → Int,
          ((l.take (k + 1)).map f).sum = ((l.take k).map f).sum + f l[k] := by
        intro f
        rw [htake]
        simp only [List.map_append, List.sum_append, List.map_cons,
          List.map_nil, List.sum_cons, List.sum_nil, add_zero]
      rw [htake, addUsageList_concat, ih]
      unfold trace.AddUsage
      rw [← htake]
      have e1 : ((l.take k).map Prod.fst).sum + l[k].1 =
          ((l.take (k + 1)).map Prod.fst).sum := (hsplit Prod.fst).symm
      have e2 : ((l.take k).map Prod.snd).sum + l[k].2 =
          ((l.take (k + 1)).map Prod.snd).sum := (hsplit Prod.snd).symm
      have e3 : ((l.take k).map (fun p => p.1 + p.2)).sum +
          (l[k].1 + l[k].2) =
          ((l.take (k + 1)).map (fun p => p.1 + p.2)).sum :=
        (hsplit (fun p => p.1 + p.2)).symm
      have hw0 : trace.wrap64 (l[k].1 + l[k].2) = l[k].1 + l[k].2 :=
        wrap64_eq_self _
          (by
            have := hp.1
            have := hp.2
            simp only [trace.twoPow63]
            omega)
          hpairB
      simp only [hw0, e1, e2, e3]
      have hneg : -trace.twoPow63 ≤ (0 : Int) := by
        simp only [trace.twoPow63]
        omega
      rw [wrap64_eq_self _ (le_trans hneg hfst0) hfstB,
        wrap64_eq_self _ (le_trans hneg hsnd0) hsndB,
        wrap64_eq_self _ (le_trans hneg hadd0) haddB]
    · have h1 : l.take (k + 1) = l.take k := by
        rw [List.take_of_length_le (by omega), List.take_of_length_le (by omega)]
      rw [h1, ih]

/-- C8 (counterexample): the Go totals are wrapping 64-bit integers, so two
`AddUsage(2^62, 0)` calls — both arguments non-negative — drive the input
total to `−2^63` instead of `2^63`: the total is neither the sum of the
inputs nor monotone from the first call to the second, refuting the claim as
stated over arbitrary non-negative arguments. -/
theorem claim_C8_counterexample :
    (trace.addUsageList trace.TokenUsage.init
        [(4611686018427387904, 0), (4611686018427387904, 0)]).inputTokens =
      -9223372036854775808 ∧
    ¬ (trace.addUsageList trace.TokenUsage.init
        [(4611686018427387904, 0), (4611686018427387904, 0)]).inputTokens =
      (([((4611686018427387904 : Int), (0 : Int)),
          (4611686018427387904, 0)]).map Prod.fst).sum ∧
    ¬ trace.usageLE
        (trace.addUsageList trace.TokenUsage.init
          (List.take 1 [((4611686018427387904 : Int), (0 : Int)),
            (4611686018427387904, 0)]))
        (trace.addUsageList trace.TokenUsage.init
          (List.take 2 [((4611686018427387904 : Int), (0 : Int)),
            (4611686018427387904, 0)])) := by
  refine ⟨by decide, by decide, ?_⟩
  intro hc
  exact absurd hc.1 (by decide)

/-- C8 (amended): for every sequence of `AddUsage(input, output)` calls with
non-negative arguments whose accumulated `input + output` total stays below
`2^63` (no 64-bit overflow — always true for real token counts), the usage
totals equal the sums of all inputs, all outputs and all `input + output`
pairs, and each of the three totals is monotonically non-decreasing across
the sequence. -/
theorem claim_C8_usage_totals (l : List (Int × Int))
    (hpos : ∀ p ∈ l, 0 ≤ p.1 ∧ 0 ≤ p.2)
    (hbound : (l.map (fun p => p.1 + p.2)).sum < trace.twoPow63) :
    (trace.addUsageList trace.TokenUsage.init l).inputTokens =
        (l.map Prod.fst).sum ∧
    (trace.addUsageList trace.TokenUsage.init l).outputTokens =
        (l.map Prod.snd).sum ∧
    (trace.addUsageList trace.TokenUsage.init l).totalTokens =
        (l.map (fun p => p.1 + p.2)).sum ∧
    ∀ k : Nat,
      trace.usageLE (trace.addUsageList trace.TokenUsage.init (l.take k))
        (trace.addUsageList trace.TokenUsage.init (l.take (k + 1))) := by
  have hspec := addUsage_take_spec l hpos hbound
  have hfull := hspec l.length
  rw [List.take_length] at hfull
  refine ⟨by rw [hfull], by rw [hfull], by rw [hfull], ?_⟩
  intro k
  rw [hspec k, hspec (k + 1)]
  unfold trace.usageLE
  refine ⟨?_, ?_, ?_⟩
  · exact sum_map_take_mono _ _ (fun p hp => (hpos p hp).1) k
  · exact sum_map_take_mono _ _ (fun p hp => (hpos p hp).2) k
  · exact sum_map_take_mono _ _
      (fun p hp => by
        have := hpos p hp
        linarith [this.1, this.2]) k

theorem claim_C8_witness :
    (([((100 : Int), (50 : Int)), (100, 50), (100, 50)].map
        (fun p => p.1 + p.2)).sum < trace.twoPow63) ∧
    (trace.addUsageList trace.TokenUsage.init
        [(100, 50), (100, 50), (100, 50)]).inputTokens = 300 ∧
    (trace.addUsageList trace.TokenUsage.init
        [(100, 50), (100, 50), (100, 50)]).outputTokens = 150 ∧
    (trace.addUsageList trace.TokenUsage.init
        [(100, 50), (100, 50), (100, 50)]).totalTokens = 450 := by
  have h := claim_C8_usage_totals [(100, 50), (100, 50), (100, 50)]
    (by decide) (by decide)
  obtain ⟨h1, h2, h3, _⟩ := h
  exact ⟨by decide, by rw [h1]; decide, by rw [h2]; decide,
    by rw [h3]; decide⟩

/-! ## Diff filtering (C10) -/

/-- C10: for a non-empty category set, `Filter` keeps exactly the
subsequence of cases whose category is in the set while copying the run
identifiers and all five summary counts unchanged from the unfiltered
result; an empty category set returns the original result with all cases. -/
theorem claim_C10_filter_frame (dr : diff.DiffResult)
    (cats : List diff.Category) :
    (cats ≠ [] →
      diff.Filter dr cats =
        { runA := dr.runA
          runB := dr.runB
          cases := dr.cases.filter (fun cd => cats.contains cd.category)
          summary := dr.summary }) ∧
    diff.Filter dr [] = dr := by
  constructor
  · intro hne
    have hlen : ¬ cats.length = 0 := by
      simpa [List.length_eq_zero] using hne
    simp [diff.Filter, hlen]
  · simp [diff.Filter]

theorem claim_C10_witness :
    (([diff.Category.improved] : List diff.Category) ≠ []) ∧
    diff.Filter
      { runA := "a", runB := "b"
        cases := [{ caseName := "x", category := diff.Category.improved },
                  { caseName := "y", category := diff.Category.removed }]
        summary := { improved := 1, removed := 1 } }
      [diff.Category.improved] =
      { runA := "a", runB := "b"
        cases := [{ caseName := "x", category := diff.Category.improved }]
        summary := { improved := 1, removed := 1 } } := by
  refine ⟨by decide, ?_⟩
  have h := (claim_C10_filter_frame
    { runA := "a", runB := "b"
      cases := [{ caseName := "x", category := diff.Category.improved },
                { caseName := "y", category := diff.Category.removed }]
      summary := { improved := 1, removed := 1 } }
    [diff.Category.improved]).1 (by decide)
  rw [h]
  decide

/-! ## Tool loop iteration cap (C1) -/

/-- C1 (code divergence): with a provider that requests a tool call on every
turn, `runCase` exits its 20-iteration tool loop with an *empty* error and an
empty final response: the Go loop in `runner.runCase` has no post-loop
branch setting a "max iterations exceeded" error, so `cr.Error` keeps its
zero value (the sibling loop in `evaltest` does set that error, and the spec
requires it). -/
theorem claim_C1_cap_leaves_error_empty :
    (runner.runCase (P := Unit)
      (fun _ => Except.ok
        { content := "calling the tool again"
          toolCalls := [{ id := "1", name := "loop_tool", parameters := () }]
          usage := { inputTokens := 3, outputTokens := 4 } })
      [{ toolName := "loop_tool", responses := []
         defaultResponse := some { content := "again", error := "", delay := 0 } }]
      "go").error = "" ∧
    (runner.runCase (P := Unit)
      (fun _ => Except.ok
        { content := "calling the tool again"
          toolCalls := [{ id := "1", name := "loop_tool", parameters := () }]
          usage := { inputTokens := 3, outputTokens := 4 } })
      [{ toolName := "loop_tool", responses := []
         defaultResponse := some { content := "again", error := "", delay := 0 } }]
      "go").finalResponse = "" ∧
    (runner.runCase (P := Unit)
      (fun _ => Except.ok
        { content := "calling the tool again"
          toolCalls := [{ id := "1", name := "loop_tool", parameters := () }]
          usage := { inputTokens := 3, outputTokens := 4 } })
      [{ toolName := "loop_tool", responses := []
         defaultResponse := some { content := "again", error := "", delay := 0 } }]
      "go").tr.toolCalls.length = runner.MaxToolLoopIterations := by
  refine ⟨rfl, rfl, rfl⟩

/-! ## Runner result ordering (C6) -/

theorem runWrites_invariant {α β : Type} (f : α → β) (cases : List α) :
    ∀ (order : List Nat) (res : List β),
      res.length = cases.length →
      (∀ i (hi : i < cases.length),
        i ∈ order ∨ res.get? i = some (f (cases.get ⟨i, hi⟩))) →
      ∀ i (hi : i < cases.length),
        (order.foldl
          (fun res idx =>
            match cases.get? idx with
            | some c => res.set idx (f c)
            | none => res) res).get? i = some (f (cases.get ⟨i, hi⟩)) := by
  intro order
  induction order with
  | nil =>
    intro res _ hres i hi
    rcases hres i hi with h | h
    · exact absurd h (List.not_mem_nil i)
    · simpa using h
  | cons idx rest ih =>
    intro res hlen hres i hi
    simp only [List.foldl_cons]
    by_cases hidx : idx < cases.length
    · have hget : cases.get? idx = some (cases.get ⟨idx, hidx⟩) :=
        List.get?_eq_get hidx
      rw [hget]
      apply ih
      · simpa using hlen
      · intro j hj
        by_cases hji : j = idx
        · subst hji
          right
          exact List.get?_set_eq_of_lt _ (by omega)
        · rcases hres j hj with hmem | hval
          · rcases List.mem_cons.mp hmem with h | h
            · exact absurd h hji
            · exact Or.inl h
          · right
            rw [List.get?_set_ne _ _ (fun e => hji e.symm)]
            exact hval
    · have hget : cases.get? idx = none := List.get?_eq_none.mpr (by omega)
      rw [hget]
      apply ih res hlen
      intro j hj
      rcases hres j hj with hmem | hval
      · rcases List.mem_cons.mp hmem with h | h
        · exact absurd (h ▸ hj) hidx
        · exact Or.inl h
      · exact Or.inr hval

/-- C6: with each case pre-assigned the output slot of its input index, the
result list of `Run` has exactly one slot per input case and the slot at
index `i` holds the result of case `i`, for every completion order of the
case goroutines (any permutation of the indices). -/
theorem claim_C6_result_order {α β : Type} (f : α → β) (cases : List α)
    (dflt : β) (order : List Nat)
    (hperm : order.Perm (List.range cases.length)) :
    (runner.runWrites f cases dflt order).length = cases.length ∧
    ∀ i (hi : i < cases.length),
      (runner.runWrites f cases dflt order).get? i =
        some (f (cases.get ⟨i, hi⟩)) := by
  constructor
  · unfold runner.runWrites
    generalize hres : List.replicate cases.length dflt = res
    have hlen : res.length = cases.length := by
      rw [← hres]; simp
    clear hres hperm
    induction order generalizing res with
    | nil => simpa using hlen
    | cons idx rest ih =>
      simp only [List.foldl_cons]
      cases h : cases.get? idx with
      | none => exact ih res hlen
      | some c => exact ih _ (by simpa using hlen)
  · intro i hi
    apply runWrites_invariant f cases order
    · simp
    · intro j hj
      left
      exact hperm.mem_iff.mpr (List.mem_range.mpr hj)

theorem claim_C6_witness :
    ([2, 0, 1] : List Nat).Perm (List.range 3) ∧
    (runner.runWrites (fun n => n * 2) [10, 20, 30] 0 [2, 0, 1]).get? 1 =
      some 40 := by
  refine ⟨by decide, ?_⟩
  exact (claim_C6_result_order (fun n => n * 2) [10, 20, 30] 0 [2, 0, 1]
    (by decide)).2 1 (by norm_num)

/-! ## Concurrency bound (C9) -/

/-- C9: the configured concurrency is coerced to 1 when it is ≤ 0, and along
every event sequence admitted by the fixed-capacity gate (buffered channel
of capacity `cap`), the set of goroutines simultaneously mid-execution never
exceeds the coerced capacity. -/
theorem claim_C9_concurrency_bound (cfg : runner.Config) :
    1 ≤ (runner.New cfg).concurrency ∧
    (cfg.concurrency ≤ 0 → (runner.New cfg).concurrency = 1) ∧
    ∀ active : List Nat,
      runner.SemReachable (runner.New cfg).concurrency.toNat active →
      active.length ≤ (runner.New cfg).concurrency.toNat := by
  refine ⟨?_, ?_, ?_⟩
  · unfold runner.New
    dsimp only
    split <;> omega
  · intro h
    unfold runner.New
    dsimp only
    rw [if_pos (by omega)]
  · intro active hreach
    induction hreach with
    | init => simp
    | acquire g _ hnot hlt ih =>
      simp only [List.length_cons]
      exact hlt
    | release g hr hmem ih =>
      calc (List.erase _ g).length ≤ _ := List.length_erase_le _ _
        _ ≤ _ := ih

theorem claim_C9_witness :
    1 ≤ (runner.New { concurrency := 0, timeout := 0 }).concurrency ∧
    ([7] : List Nat).length ≤
      (runner.New { concurrency := 0, timeout := 0 }).concurrency.toNat := by
  refine ⟨(claim_C9_concurrency_bound _).1, ?_⟩
  exact (claim_C9_concurrency_bound { concurrency := 0, timeout := 0 }).2.2 [7]
    (runner.SemReachable.acquire 7 runner.SemReachable.init
      (by simp) (by decide))

/-! ## Mock resolver (C3, C4) -/

theorem Resolve_eq_of_no_mock {P : Type} (r : mock.MockRegistry P)
    (tool : String) (params : P)
    (hm : goLookup r.mocks tool = none) :
    mock.Resolve r tool params = (r, Except.error (mock.noMockMsg tool)) := by
  unfold mock.Resolve
  rw [hm]

theorem Resolve_eq_of_oneshot {P : Type} (r : mock.MockRegistry P)
    (tool : String) (params : P) (cfg : mock.MockConfig) (idx : Nat)
    (hm : goLookup r.mocks tool = some cfg)
    (hieq : (goLookup r.callIdx tool).getD 0 = idx)
    (hidx : idx < cfg.responses.length) :
    mock.Resolve r tool params =
      ({ r with
          callIdx := (tool, idx + 1) :: r.callIdx
          calls := r.calls ++
            [⟨tool, params, (cfg.responses.get ⟨idx, hidx⟩).content,
              (cfg.responses.get ⟨idx, hidx⟩).error⟩] },
       if (cfg.responses.get ⟨idx, hidx⟩).error = "" then
         Except.ok (cfg.responses.get ⟨idx, hidx⟩).content
       else
         Except.error
           (mock.mockErrMsg tool (cfg.responses.get ⟨idx, hidx⟩).error)) := by
  unfold mock.Resolve
  rw [hm]
  simp only [hieq, dif_pos hidx]
  split <;> simp

theorem Resolve_eq_of_default {P : Type} (r : mock.MockRegistry P)
    (tool : String) (params : P) (cfg : mock.MockConfig) (idx : Nat)
    (d : mock.MockResponse)
    (hm : goLookup r.mocks tool = some cfg)
    (hieq : (goLookup r.callIdx tool).getD 0 = idx)
    (hidx : ¬ idx < cfg.responses.length)
    (hd : cfg.defaultResponse = some d) :
    mock.Resolve r tool params =
      ({ r with calls := r.calls ++ [⟨tool, params, d.content, d.error⟩] },
       if d.error = "" then Except.ok d.content
       else Except.error (mock.mockErrMsg tool d.error)) := by
  unfold mock.Resolve
  rw [hm]
  simp only [hieq, dif_neg hidx, hd]
  split <;> simp

theorem Resolve_eq_of_exhausted {P : Type} (r : mock.MockRegistry P)
    (tool : String) (params : P) (cfg : mock.MockConfig) (idx : Nat)
    (hm : goLookup r.mocks tool = some cfg)
    (hieq : (goLookup r.callIdx tool).getD 0 = idx)
    (hidx : ¬ idx < cfg.responses.length)
    (hd : cfg.defaultResponse = none) :
    mock.Resolve r tool params = (r, Except.error (mock.exhaustedMsg tool)) := by
  unfold mock.Resolve
  rw [hm]
  simp only [hieq, dif_neg hidx, hd]

theorem resolveIter_spec {P : Type} (tool : String)
    (responses : List mock.MockResponse) (dflt : Option mock.MockResponse)
    (params : P) (k : Nat) :
    goLookup
      (mock.resolveIter (mock.NewRegistry P [⟨tool, responses, dflt⟩])
        tool params k).mocks tool = some ⟨tool, responses, dflt⟩ ∧
    (goLookup
      (mock.resolveIter (mock.NewRegistry P [⟨tool, responses, dflt⟩])
        tool params k).callIdx tool).getD 0 = min k responses.length := by
  induction k with
  | zero =>
    constructor
    · simp [mock.resolveIter, mock.NewRegistry, goLookup]
    · simp [mock.resolveIter, mock.NewRegistry, goLookup]
  | succ k ih =>
    obtain ⟨ihm, ihi⟩ := ih
    show goLookup (mock.Resolve _ tool params).1.mocks tool = _ ∧
      (goLookup (mock.Resolve _ tool params).1.callIdx tool).getD 0 = _
    by_cases hidx : min k responses.length < responses.length
    · rw [Resolve_eq_of_oneshot _ tool params _ (min k responses.length)
        ihm ihi hidx]
      refine ⟨ihm, ?_⟩
      simp [goLookup]
      omega
    · rcases hd : dflt with _ | d
      · rw [hd] at ihm ihi
        rw [Resolve_eq_of_exhausted _ tool params _ (min k responses.length)
          ihm ihi (hd ▸ hidx) rfl]
        refine ⟨ihm, ?_⟩
        rw [ihi]
        omega
      · rw [hd] at ihm ihi
        rw [Resolve_eq_of_default _ tool params _ (min k responses.length) d
          ihm ihi (hd ▸ hidx) rfl]
        refine ⟨ihm, ?_⟩
        show (goLookup _ tool).getD 0 = _
        rw [ihi]
        omega

/-- C4: for a tool configured with one-shot responses `[R1, …, Rn]` (none of
which simulates an error), the first `n` `Resolve` calls return `R1 … Rn` in
order; every later call returns the configured default response when one
exists and otherwise fails with the "exhausted" error; a call for a tool
with no configuration fails with the "no mock configured" error. -/
theorem claim_C4_oneshot_sequence {P : Type} (tool : String)
    (responses : List mock.MockResponse) (dflt : Option mock.MockResponse)
    (params : P) (k : Nat)
    (hresp : ∀ resp ∈ responses, resp.error = "") :
    (∀ hk : k < responses.length,
      mock.nthResolve (mock.NewRegistry P [⟨tool, responses, dflt⟩]) tool
          params k = Except.ok (responses.get ⟨k, hk⟩).content) ∧
    (responses.length ≤ k → ∀ d : mock.MockResponse, dflt = some d →
      d.error = "" →
      mock.nthResolve (mock.NewRegistry P [⟨tool, responses, dflt⟩]) tool
          params k = Except.ok d.content) ∧
    (responses.length ≤ k → dflt = none →
      mock.nthResolve (mock.NewRegistry P [⟨tool, responses, dflt⟩]) tool
          params k = Except.error (mock.exhaustedMsg tool)) ∧
    (∀ other : String, other ≠ tool →
      (mock.Resolve (mock.NewRegistry P [⟨tool, responses, dflt⟩]) other
          params).2 = Except.error (mock.noMockMsg other)) := by
  obtain ⟨hm, hi⟩ := resolveIter_spec tool responses dflt params k
  refine ⟨?_, ?_, ?_, ?_⟩
  · intro hk
    have hieq : (goLookup
        (mock.resolveIter (mock.NewRegistry P [⟨tool, responses, dflt⟩])
          tool params k).callIdx tool).getD 0 = k := by
      rw [hi]; omega
    unfold mock.nthResolve
    rw [Resolve_eq_of_oneshot _ tool params _ k hm hieq hk]
    have herr : (responses.get ⟨k, hk⟩).error = "" :=
      hresp _ (List.get_mem responses _ _)
    show (if (responses.get ⟨k, hk⟩).error = "" then
        Except.ok (responses.get ⟨k, hk⟩).content
      else Except.error (mock.mockErrMsg tool (responses.get ⟨k, hk⟩).error)) =
      Except.ok (responses.get ⟨k, hk⟩).content
    rw [if_pos herr]
  · intro hk d hd herr
    rw [hd] at hm hi
    unfold mock.nthResolve
    rw [hd]
    rw [Resolve_eq_of_default _ tool params _ (min k responses.length) d hm hi
      (by show ¬ min k responses.length < responses.length; omega) rfl]
    show (if d.error = "" then Except.ok d.content
      else Except.error (mock.mockErrMsg tool d.error)) = Except.ok d.content
    rw [if_pos herr]
  · intro hk hd
    rw [hd] at hm hi
    unfold mock.nthResolve
    rw [hd]
    rw [Resolve_eq_of_exhausted _ tool params _ (min k responses.length) hm hi
      (by show ¬ min k responses.length < responses.length; omega) rfl]
  · intro other hne
    have hlookup : goLookup
        (mock.NewRegistry P [⟨tool, responses, dflt⟩]).mocks other = none := by
      simp [mock.NewRegistry, goLookup, hne.symm]
    rw [Resolve_eq_of_no_mock _ other params hlookup]

theorem claim_C4_witness :
    mock.nthResolve
      (mock.NewRegistry Unit
        [⟨"t", [⟨"R1", "", 0⟩, ⟨"R2", "", 0⟩], none⟩]) "t" () 1 =
      Except.ok "R2" ∧
    mock.nthResolve
      (mock.NewRegistry Unit
        [⟨"t", [⟨"R1", "", 0⟩, ⟨"R2", "", 0⟩], none⟩]) "t" () 2 =
      Except.error (mock.exhaustedMsg "t") ∧
    mock.nthResolve
      (mock.NewRegistry Unit
        [⟨"t", [⟨"R1", "", 0⟩, ⟨"R2", "", 0⟩], some ⟨"D", "", 0⟩⟩]) "t" () 5 =
      Except.ok "D" ∧
    (mock.Resolve
      (mock.NewRegistry Unit
        [⟨"t", [⟨"R1", "", 0⟩, ⟨"R2", "", 0⟩], none⟩]) "u" ()).2 =
      Except.error (mock.noMockMsg "u") := by
  refine ⟨?_, ?_, ?_, ?_⟩
  · exact (claim_C4_oneshot_sequence "t" [⟨"R1", "", 0⟩, ⟨"R2", "", 0⟩] none ()
      1 (by decide)).1 (by norm_num)
  · exact (claim_C4_oneshot_sequence "t" [⟨"R1", "", 0⟩, ⟨"R2", "", 0⟩] none ()
      2 (by decide)).2.2.1 (by norm_num) rfl
  · exact (claim_C4_oneshot_sequence "t" [⟨"R1", "", 0⟩, ⟨"R2", "", 0⟩]
      (some ⟨"D", "", 0⟩) () 5 (by decide)).2.1 (by norm_num) _ rfl rfl
  · exact (claim_C4_oneshot_sequence "t" [⟨"R1", "", 0⟩, ⟨"R2", "", 0⟩] none ()
      0 (by decide)).2.2.2 "u" (by decide)

/-- C3 (counterexample): a `Resolve` call for an unconfigured tool fails with
the "no mock configured" error and appends *nothing* to the call log (the Go
code returns before the log append), refuting the claim that every call —
including the unmocked-tool failure — appends one record. -/
theorem claim_C3_counterexample :
    mock.GetCalls (mock.Resolve (mock.NewRegistry Unit []) "t" ()).1 = [] ∧
    (mock.Resolve (mock.NewRegistry Unit []) "t" ()).2 =
      Except.error (mock.noMockMsg "t") := by
  constructor <;> rfl

/-- C3 (amended): a `Resolve` call that selects a response (a one-shot entry
or the default; success or configured error) appends exactly one record with
the tool name, the parameters and the selected content/error; a call that
fails with "no mock configured" or "exhausted" leaves the registry — and so
the call log — unchanged; the log is retrievable in full via `GetCalls` and
filtered by tool name via `GetCallsForTool`. -/
theorem claim_C3_call_logging {P : Type} (r : mock.MockRegistry P)
    (tool : String) (params : P) :
    (∀ resp : mock.MockResponse, mock.selectedResponse r tool = some resp →
      (mock.Resolve r tool params).1.calls =
        r.calls ++ [⟨tool, params, resp.content, resp.error⟩]) ∧
    (mock.selectedResponse r tool = none →
      (mock.Resolve r tool params).1 = r ∧
      ((mock.Resolve r tool params).2 = Except.error (mock.noMockMsg tool) ∨
       (mock.Resolve r tool params).2 =
         Except.error (mock.exhaustedMsg tool))) ∧
    mock.GetCalls (mock.Resolve r tool params).1 =
      (mock.Resolve r tool params).1.calls ∧
    (∀ name, mock.GetCallsForTool (mock.Resolve r tool params).1 name =
      ((mock.Resolve r tool params).1.calls.filter
        (fun c => decide (c.toolName = name)))) := by
  refine ⟨?_, ?_, rfl, fun _ => rfl⟩
  · intro resp hsel
    rcases hm : goLookup r.mocks tool with _ | cfg
    · exact absurd hsel (by simp [mock.selectedResponse, hm])
    · simp only [mock.selectedResponse, hm] at hsel
      by_cases hidx : (goLookup r.callIdx tool).getD 0 < cfg.responses.length
      · rw [dif_pos hidx] at hsel
        have hresp : cfg.responses.get
            ⟨(goLookup r.callIdx tool).getD 0, hidx⟩ = resp := by
          exact Option.some_injective _ hsel
        rw [Resolve_eq_of_oneshot r tool params cfg _ hm rfl hidx, hresp]
      · rw [dif_neg hidx] at hsel
        rw [Resolve_eq_of_default r tool params cfg _ resp hm rfl hidx hsel]
  · intro hsel
    rcases hm : goLookup r.mocks tool with _ | cfg
    · rw [Resolve_eq_of_no_mock r tool params hm]
      exact ⟨rfl, Or.inl rfl⟩
    · simp only [mock.selectedResponse, hm] at hsel
      by_cases hidx : (goLookup r.callIdx tool).getD 0 < cfg.responses.length
      · rw [dif_pos hidx] at hsel
        exact absurd hsel (by simp)
      · rw [dif_neg hidx] at hsel
        rw [Resolve_eq_of_exhausted r tool params cfg _ hm rfl hidx hsel]
        exact ⟨rfl, Or.inr rfl⟩

theorem claim_C3_witness :
    mock.selectedResponse
      (mock.NewRegistry Unit [⟨"t", [⟨"R1", "", 0⟩], none⟩]) "t" =
      some ⟨"R1", "", 0⟩ ∧
    (mock.Resolve (mock.NewRegistry Unit [⟨"t", [⟨"R1", "", 0⟩], none⟩])
        "t" ()).1.calls = [⟨"t", (), "R1", ""⟩] := by
  refine ⟨rfl, ?_⟩
  exact (claim_C3_call_logging
    (mock.NewRegistry Unit [⟨"t", [⟨"R1", "", 0⟩], none⟩]) "t" ()).1
    ⟨"R1", "", 0⟩ rfl

/-! ## Composite scorer (C2, C5) -/

theorem scoreStep_foldl_spec (configs : List judge.JudgeCfg)
    (acc : judge.ScoreAcc) :
    (configs.foldl judge.scoreStep acc).totalWeight =
        acc.totalWeight + judge.contribWeight configs ∧
    (configs.foldl judge.scoreStep acc).weightedSum =
        acc.weightedSum + judge.contribSum configs ∧
    (configs.foldl judge.scoreStep acc).hasError =
        (acc.hasError || judge.anyErrored configs) ∧
    (configs.foldl judge.scoreStep acc).hasReview =
        (acc.hasReview || judge.anyReview configs) := by
  induction configs generalizing acc with
  | nil =>
    simp [judge.contribWeight, judge.contribSum, judge.anyErrored,
      judge.anyReview]
  | cons cfg rest ih =>
    obtain ⟨ih1, ih2, ih3, ih4⟩ := ih (judge.scoreStep acc cfg)
    rcases hout : cfg.outcome with e | res
    · have herrored : judge.errored cfg = true := by
        unfold judge.errored
        rw [hout]
      have hs1 : (judge.scoreStep acc cfg).totalWeight = acc.totalWeight := by
        simp [judge.scoreStep, hout]
      have hs2 : (judge.scoreStep acc cfg).weightedSum = acc.weightedSum := by
        simp [judge.scoreStep, hout]
      have hs3 : (judge.scoreStep acc cfg).hasError = true := by
        simp [judge.scoreStep, hout]
      have hs4 : (judge.scoreStep acc cfg).hasReview = acc.hasReview := by
        simp [judge.scoreStep, hout]
      have hflag : judge.flaggedReview cfg = false := by
        unfold judge.flaggedReview
        rw [hout]
      refine ⟨?_, ?_, ?_, ?_⟩
      · rw [List.foldl_cons, ih1, hs1]
        simp [judge.contribWeight, List.filter_cons, herrored]
      · rw [List.foldl_cons, ih2, hs2]
        simp [judge.contribSum, List.filter_cons, herrored]
      · rw [List.foldl_cons, ih3, hs3]
        simp [judge.anyErrored, herrored]
      · rw [List.foldl_cons, ih4, hs4]
        simp [judge.anyReview, hflag]
    · have herrored : judge.errored cfg = false := by
        unfold judge.errored
        rw [hout]
      have hflag : judge.flaggedReview cfg = decide (res.reason = "review") := by
        unfold judge.flaggedReview
        rw [hout]
      have hscore : judge.okScore cfg = res.score := by
        unfold judge.okScore
        rw [hout]
      have hs1 : (judge.scoreStep acc cfg).totalWeight =
          acc.totalWeight + judge.effWeight cfg := by
        simp [judge.scoreStep, hout, judge.effWeight]
      have hs2 : (judge.scoreStep acc cfg).weightedSum =
          acc.weightedSum + res.score * judge.effWeight cfg := by
        simp [judge.scoreStep, hout, judge.effWeight]
      have hs3 : (judge.scoreStep acc cfg).hasError = acc.hasError := by
        simp [judge.scoreStep, hout]
      have hs4 : (judge.scoreStep acc cfg).hasReview =
          (acc.hasReview || decide (res.reason = "review")) := by
        simp [judge.scoreStep, hout]
      refine ⟨?_, ?_, ?_, ?_⟩
      · rw [List.foldl_cons, ih1, hs1]
        simp [judge.contribWeight, List.filter_cons, herrored]
        ring
      · rw [List.foldl_cons, ih2, hs2]
        simp [judge.contribSum, List.filter_cons, herrored, hscore]
        ring
      · rw [List.foldl_cons, ih3, hs3]
        simp [judge.anyErrored, herrored]
      · rw [List.foldl_cons, ih4, hs4]
        simp [judge.anyReview, hflag, Bool.or_assoc]

/-- C2 (counterexample): a single judge flagged for human review (reason
"review", score 1, weight 1) *does* contribute to the weighted sum and the
weight total — the composite score is 1, not the 0 the claim requires when
every judge is review-flagged (the accumulation in `Score` runs for every
non-errored judge, review included). -/
theorem claim_C2_counterexample :
    judge.anyReview
      [{ name := "r", weight := 1
         outcome := Except.ok { pass := true, score := 1, reason := "review" } }] =
      true ∧
    (judge.Score (judge.NewCompositeScorer (1 / 2))
      [{ name := "r", weight := 1
         outcome := Except.ok
           { pass := true, score := 1, reason := "review" } }]).compositeScore =
      1 ∧
    ¬ (judge.Score (judge.NewCompositeScorer (1 / 2))
      [{ name := "r", weight := 1
         outcome := Except.ok
           { pass := true, score := 1, reason := "review" } }]).compositeScore =
      0 := by
  have hc : (judge.Score (judge.NewCompositeScorer (1 / 2))
      [{ name := "r", weight := 1
         outcome := Except.ok
           { pass := true, score := 1, reason := "review" } }]).compositeScore =
      1 := by
    simp [judge.Score, judge.scoreStep, judge.NewCompositeScorer]
  refine ⟨by decide, hc, ?_⟩
  rw [hc]
  norm_num

/-- C2 (amended): the composite score equals the weighted sum of the
non-errored judges' scores divided by the sum of their weights (each weight
defaulting to 1 when zero) whenever that weight sum is positive — judges
flagged for human review contribute like any other non-errored judge, only
errored judges are excluded — and the composite is 0 when the contributing
weight sum is not positive (no judges configured or all judges errored). -/
theorem claim_C2_composite_formula (threshold : ℚ)
    (configs : List judge.JudgeCfg) :
    (judge.Score ⟨threshold⟩ configs).compositeScore =
      if 0 < judge.contribWeight configs then
        judge.contribSum configs / judge.contribWeight configs
      else 0 := by
  obtain ⟨h1, h2, _, _⟩ :=
    scoreStep_foldl_spec configs ⟨[], 0, 0, false, false, []⟩
  unfold judge.Score
  simp only [h1, h2, zero_add]

/-- C5: the verdict is Pass iff the composite score reaches the configured
threshold and no judge errored or was flagged for review; the status follows
the Error-over-Review-over-threshold precedence; and with zero configured
judges (and a non-negative configured threshold, which `NewCompositeScorer`
turns into an effective threshold of 0.5 when zero) the result is composite
0 with status Fail. -/
theorem claim_C5_verdict_precedence (t : ℚ) (ht : 0 ≤ t)
    (configs : List judge.JudgeCfg) :
    (judge.Score (judge.NewCompositeScorer t) configs).pass =
      (decide ((judge.NewCompositeScorer t).threshold ≤
          (judge.Score (judge.NewCompositeScorer t) configs).compositeScore) &&
        !judge.anyErrored configs && !judge.anyReview configs) ∧
    (judge.Score (judge.NewCompositeScorer t) configs).status =
      (if judge.anyErrored configs = true then judge.Status.error
       else if judge.anyReview configs = true then judge.Status.review
       else if (judge.NewCompositeScorer t).threshold ≤
           (judge.Score (judge.NewCompositeScorer t) configs).compositeScore
         then judge.Status.pass
       else judge.Status.fail) ∧
    (configs = [] →
      (judge.Score (judge.NewCompositeScorer t) configs).compositeScore = 0 ∧
      (judge.Score (judge.NewCompositeScorer t) configs).status =
        judge.Status.fail ∧
      (judge.Score (judge.NewCompositeScorer t) configs).pass = false) := by
  obtain ⟨h1, h2, h3, h4⟩ :=
    scoreStep_foldl_spec configs ⟨[], 0, 0, false, false, []⟩
  refine ⟨?_, ?_, ?_⟩
  · cases hE : judge.anyErrored configs <;>
      cases hR : judge.anyReview configs <;>
        simp [judge.Score, h3, h4, hE, hR]
  · cases hE : judge.anyErrored configs <;>
      cases hR : judge.anyReview configs <;>
        simp [judge.Score, h3, h4, hE, hR]
  · intro hnil
    subst hnil
    have hth : 0 < (judge.NewCompositeScorer t).threshold := by
      unfold judge.NewCompositeScorer
      by_cases ht0 : t = 0
      · simp [ht0]
      · rw [if_neg ht0]
        exact lt_of_le_of_ne ht (Ne.symm ht0)
    have hnle : ¬ (judge.NewCompositeScorer t).threshold ≤ (0 : ℚ) :=
      not_le.mpr hth
    refine ⟨?_, ?_, ?_⟩ <;>
      simp [judge.Score, judge.anyErrored, judge.anyReview, hnle]

theorem claim_C5_witness :
    (0 : ℚ) ≤ 1 / 2 ∧
    (judge.Score (judge.NewCompositeScorer (1 / 2)) []).compositeScore = 0 ∧
    (judge.Score (judge.NewCompositeScorer (1 / 2)) []).status =
      judge.Status.fail ∧
    (judge.Score (judge.NewCompositeScorer (1 / 2)) []).pass = false := by
  have h := (claim_C5_verdict_precedence (1 / 2) (by norm_num) []).2.2 rfl
  exact ⟨by norm_num, h.1, h.2.1, h.2.2⟩

/-! ## Diff engine (C7) -/

theorem goLookup_append {β : Type} (u v : List (String × β)) (k : String) :
    goLookup (u ++ v) k =
      (match goLookup u k with
       | some x => some x
       | none => goLookup v k) := by
  induction u with
  | nil => rfl
  | cons p u ih =>
    by_cases h : p.1 = k
    · simp [goLookup, h]
    · simp [goLookup, h, ih]

theorem goLookup_eq_none_of_not_mem {β : Type} (u : List (String × β))
    (k : String) (h : k ∉ u.map Prod.fst) : goLookup u k = none := by
  induction u with
  | nil => rfl
  | cons p u ih =>
    simp only [List.map_cons, List.mem_cons, not_or] at h
    have hne : ¬ p.1 = k := fun e => h.1 (Eq.symm e)
    simp only [goLookup, if_neg hne]
    exact ih h.2

theorem goLookup_reverse {β : Type} (u : List (String × β))
    (hnod : (u.map Prod.fst).Nodup) (k : String) :
    goLookup u.reverse k = goLookup u k := by
  induction u with
  | nil => rfl
  | cons p u ih =>
    simp only [List.map_cons, List.nodup_cons] at hnod
    rw [List.reverse_cons, goLookup_append]
    by_cases h : p.1 = k
    · have hnone : goLookup u k = none :=
        goLookup_eq_none_of_not_mem u k (h ▸ hnod.1)
      rw [ih hnod.2, hnone]
      simp [goLookup, h]
    · rw [ih hnod.2]
      cases hk : goLookup u k with
      | none => simp [goLookup, h, hk]
      | some x => simp [goLookup, h, hk]

theorem goLookup_map_eq_find? (l : List diff.CaseResult) (k : String) :
    goLookup (l.map (fun cr => (cr.caseName, cr))) k =
      l.find? (fun cr => decide (cr.caseName = k)) := by
  induction l with
  | nil => rfl
  | cons cr l ih =>
    by_cases h : cr.caseName = k
    · simp [goLookup, List.find?, h]
    · simp only [List.map_cons, goLookup, if_neg h, List.find?]
      rw [decide_eq_false h]
      exact ih

theorem foldl_prepend_eq (l : List diff.CaseResult)
    (m : List (String × diff.CaseResult)) :
    l.foldl (fun m cr => (cr.caseName, cr) :: m) m =
      (l.map (fun cr => (cr.caseName, cr))).reverse ++ m := by
  induction l generalizing m with
  | nil => simp
  | cons cr l ih => simp [ih]

theorem summarize_append (s : diff.Summary) (u v : List diff.CaseDiff) :
    diff.summarize (diff.summarize s u) v = diff.summarize s (u ++ v) := by
  unfold diff.summarize
  rw [List.foldl_append]

theorem summarize_counts (cds : List diff.CaseDiff) (s : diff.Summary) :
    (diff.summarize s cds).improved = s.improved +
      cds.countP (fun cd => decide (cd.category = diff.Category.improved)) ∧
    (diff.summarize s cds).regressed = s.regressed +
      cds.countP (fun cd => decide (cd.category = diff.Category.regressed)) ∧
    (diff.summarize s cds).unchanged = s.unchanged +
      cds.countP (fun cd => decide (cd.category = diff.Category.unchanged)) ∧
    (diff.summarize s cds).new = s.new +
      cds.countP (fun cd => decide (cd.category = diff.Category.new)) ∧
    (diff.summarize s cds).removed = s.removed +
      cds.countP (fun cd => decide (cd.category = diff.Category.removed)) := by
  induction cds generalizing s with
  | nil => simp [diff.summarize]
  | cons cd rest ih =>
    have hstep : diff.summarize s (cd :: rest) =
        diff.summarize (diff.bumpSummary s cd.category) rest := rfl
    obtain ⟨ih1, ih2, ih3, ih4, ih5⟩ := ih (diff.bumpSummary s cd.category)
    rw [hstep]
    refine ⟨?_, ?_, ?_, ?_, ?_⟩ <;>
      · first
        | rw [ih1] | rw [ih2] | rw [ih3] | rw [ih4] | rw [ih5]
        cases hc : cd.category <;>
          simp [diff.bumpSummary, List.countP_cons, hc] <;> omega

theorem compareB_foldl (aMap : List (String × diff.CaseResult)) (t : ℚ)
    (l : List diff.CaseResult) (cs : List diff.CaseDiff) (s : diff.Summary) :
    l.foldl
      (fun (acc : List diff.CaseDiff × diff.Summary) crB =>
        (acc.1 ++ [diff.diffForB aMap t crB],
         diff.bumpSummary acc.2 (diff.diffForB aMap t crB).category)) (cs, s) =
      (cs ++ l.map (diff.diffForB aMap t),
       diff.summarize s (l.map (diff.diffForB aMap t))) := by
  induction l generalizing cs s with
  | nil => simp [diff.summarize]
  | cons crB l ih =>
    rw [List.foldl_cons, ih]
    have hsum : diff.summarize s
        (diff.diffForB aMap t crB :: List.map (diff.diffForB aMap t) l) =
        diff.summarize
          (diff.bumpSummary s (diff.diffForB aMap t crB).category)
          (List.map (diff.diffForB aMap t) l) := rfl
    rw [List.map_cons, hsum]
    simp

theorem compareA_foldl (b : List diff.CaseResult)
    (l : List diff.CaseResult) (cs : List diff.CaseDiff) (s : diff.Summary) :
    l.foldl
      (fun (acc : List diff.CaseDiff × diff.Summary) crA =>
        if b.any (fun crB => decide (crB.caseName = crA.caseName)) then acc
        else (acc.1 ++ [diff.removedDiff crA],
          diff.bumpSummary acc.2 diff.Category.removed)) (cs, s) =
      (cs ++ (l.filter (fun crA =>
          !b.any (fun crB => decide (crB.caseName = crA.caseName)))).map
            diff.removedDiff,
       diff.summarize s ((l.filter (fun crA =>
          !b.any (fun crB => decide (crB.caseName = crA.caseName)))).map
            diff.removedDiff)) := by
  induction l generalizing cs s with
  | nil => simp [diff.summarize]
  | cons crA l ih =>
    rw [List.foldl_cons]
    by_cases h : b.any (fun crB => decide (crB.caseName = crA.caseName)) = true
    · rw [if_pos h, ih]
      rw [List.filter_cons_of_neg (by simp [h])]
    · rw [if_neg h, ih]
      rw [List.filter_cons_of_pos (by simp [Bool.not_eq_true] at h ⊢; exact h)]
      have hbump : diff.bumpSummary s diff.Category.removed =
          diff.bumpSummary s (diff.removedDiff crA).category := rfl
      have hsum : diff.summarize s
          (diff.removedDiff crA ::
            List.map diff.removedDiff (List.filter (fun crA =>
              !b.any (fun crB => decide (crB.caseName = crA.caseName))) l)) =
          diff.summarize (diff.bumpSummary s (diff.removedDiff crA).category)
            (List.map diff.removedDiff (List.filter (fun crA =>
              !b.any (fun crB => decide (crB.caseName = crA.caseName))) l)) :=
        rfl
      rw [List.map_cons, hsum, hbump]
      simp

theorem diffForB_eq_spec (a : List diff.CaseResult)
    (aMap : List (String × diff.CaseResult)) (t : ℚ) (ht : 0 ≤ t)
    (hmap : ∀ k, goLookup aMap k =
      a.find? (fun crA => decide (crA.caseName = k)))
    (crB : diff.CaseResult) :
    diff.diffForB aMap t crB = diff.specDiffForB a t crB := by
  unfold diff.diffForB diff.specDiffForB
  rw [hmap crB.caseName]
  cases hfind : a.find? (fun crA => decide (crA.caseName = crB.caseName)) with
  | none => rfl
  | some crA =>
    dsimp only
    by_cases h1 : |crB.score - crA.score| ≤ t
    · rw [if_pos h1, if_pos h1]
    · rw [if_neg h1, if_neg h1]
      have h1' : t < |crB.score - crA.score| := not_le.mp h1
      rcases abs_cases (crB.score - crA.score) with ⟨he, hd⟩ | ⟨he, hd⟩
      · rw [he] at h1'
        rw [if_pos (by linarith), if_pos h1']
      · rw [he] at h1'
        rw [if_neg (by linarith), if_neg (by linarith)]

theorem Compare_eq_spec (a b : diff.RunSummary) (t : ℚ) (ht : 0 ≤ t)
    (ha : (a.results.map diff.CaseResult.caseName).Nodup) :
    diff.Compare a b t =
      { runA := a.runID
        runB := b.runID
        cases := b.results.map (diff.specDiffForB a.results t) ++
          diff.specRemoved a.results b.results
        summary := diff.summarize {}
          (b.results.map (diff.specDiffForB a.results t) ++
            diff.specRemoved a.results b.results) } := by
  have hkeys : ((a.results.map (fun cr => (cr.caseName, cr))).map
      Prod.fst).Nodup := by
    simpa [List.map_map, Function.comp] using ha
  have hmap : ∀ k,
      goLookup (a.results.foldl (fun m cr => (cr.caseName, cr) :: m) []) k =
        a.results.find? (fun crA => decide (crA.caseName = k)) := by
    intro k
    rw [foldl_prepend_eq, List.append_nil, goLookup_reverse _ hkeys,
      goLookup_map_eq_find?]
  have hfun : diff.diffForB
      (a.results.foldl (fun m cr => (cr.caseName, cr) :: m) []) t =
      diff.specDiffForB a.results t :=
    funext (diffForB_eq_spec a.results _ t ht hmap)
  unfold diff.Compare
  simp only [compareB_foldl, compareA_foldl, List.nil_append]
  rw [hfun, summarize_append]
  rfl

/-- C7: for runs with unique case names and a non-negative threshold,
`Compare` classifies every run-B case by name — New when absent from run A,
otherwise by `delta = scoreB − scoreA` against the threshold (Unchanged when
`|delta| ≤ t`, Improved when `delta > t`, Regressed when `delta < −t`) —
appends a Removed entry for each run-A case absent from run B, and each
summary counter equals the number of produced cases of that category. -/
theorem claim_C7_compare_classification (a b : diff.RunSummary) (t : ℚ)
    (ht : 0 ≤ t) (ha : (a.results.map diff.CaseResult.caseName).Nodup) :
    (diff.Compare a b t).runA = a.runID ∧
    (diff.Compare a b t).runB = b.runID ∧
    (diff.Compare a b t).cases =
      b.results.map (diff.specDiffForB a.results t) ++
        diff.specRemoved a.results b.results ∧
    (diff.Compare a b t).summary.improved =
      (diff.Compare a b t).cases.countP
        (fun cd => decide (cd.category = diff.Category.improved)) ∧
    (diff.Compare a b t).summary.regressed =
      (diff.Compare a b t).cases.countP
        (fun cd => decide (cd.category = diff.Category.regressed)) ∧
    (diff.Compare a b t).summary.unchanged =
      (diff.Compare a b t).cases.countP
        (fun cd => decide (cd.category = diff.Category.unchanged)) ∧
    (diff.Compare a b t).summary.new =
      (diff.Compare a b t).cases.countP
        (fun cd => decide (cd.category = diff.Category.new)) ∧
    (diff.Compare a b t).summary.removed =
      (diff.Compare a b t).cases.countP
        (fun cd => decide (cd.category = diff.Category.removed)) := by
  rw [Compare_eq_spec a b t ht ha]
  obtain ⟨c1, c2, c3, c4, c5⟩ := summarize_counts
    (b.results.map (diff.specDiffForB a.results t) ++
      diff.specRemoved a.results b.results) {}
  exact ⟨rfl, rfl, rfl, by simpa using c1, by simpa using c2,
    by simpa using c3, by simpa using c4, by simpa using c5⟩

theorem claim_C7_witness :
    (0 : ℚ) ≤ 0 ∧
    (([⟨"x", 9 / 10, true, ""⟩] :
        List diff.CaseResult).map diff.CaseResult.caseName).Nodup ∧
    (diff.Compare ⟨"run-a", [⟨"x", 9 / 10, true, ""⟩]⟩
        ⟨"run-b", [⟨"x", 2 / 5, false, ""⟩]⟩ 0).cases =
      [{ caseName := "x", category := diff.Category.regressed
         scoreA := 9 / 10, scoreB := 2 / 5, scoreDelta := -(1 / 2)
         statusA := "pass", statusB := "fail" }] ∧
    (diff.Compare ⟨"run-a", [⟨"x", 9 / 10, true, ""⟩]⟩
        ⟨"run-b", [⟨"x", 2 / 5, false, ""⟩]⟩ 0).summary.regressed = 1 := by
  have h := claim_C7_compare_classification
    ⟨"run-a", [⟨"x", 9 / 10, true, ""⟩]⟩
    ⟨"run-b", [⟨"x", 2 / 5, false, ""⟩]⟩ 0 (by norm_num) (by decide)
  obtain ⟨-, -, hcases, -, hreg, -, -, -⟩ := h
  have hlist : ([⟨"x", 2 / 5, false, ""⟩] :
      List diff.CaseResult).map (diff.specDiffForB [⟨"x", 9 / 10, true, ""⟩] 0) ++
      diff.specRemoved [⟨"x", 9 / 10, true, ""⟩] [⟨"x", 2 / 5, false, ""⟩] =
      [{ caseName := "x", category := diff.Category.regressed
         scoreA := 9 / 10, scoreB := 2 / 5, scoreDelta := -(1 / 2)
         statusA := "pass", statusB := "fail" }] := by
    norm_num [diff.specDiffForB, diff.specRemoved, List.find?, diff.statusStr,
      abs]
  refine ⟨by norm_num, by decide, ?_, ?_⟩
  · rw [hcases, hlist]
  · rw [hreg, hcases, hlist]
    rfl
